import Mathlib

/-!
Shallow embedding of the core components of the `open_source_android_apps`
research-tooling repository, together with theorems settling the spec's
claims against it.

Embedded components:
* `util/ratelimited_github.py` — the rate-limited request gate
  (`RateLimitedGitHubSession`): rate-limit cache, header recording,
  waiting, and the retry loop of `request`.
* `subcommands/match_packages.py` — `deduplicate`, the popularity-based
  repository deduplication cascade.
* `util/github_repo.py` — `RepoVerifier.full_name_to_parts` and
  `Repo.count_commits`.
* `util/bare_git.py` — `GitHistory._parse_stats`, the shortstat parser.
* `util/recursive_search.py` — `RecursiveSearch.search` and
  `GithubLinkSearch`.

Modelling conventions: Python `str` is `String`, `int` is `Int`
(counts that are provably non-negative use `Nat`), dictionaries are
association lists (`List (key × value)`) preserving insertion order,
time is modelled as integral POSIX seconds, and functions that can raise
return `Except PyErr _`.  The regular expressions of the source are
embedded as explicit executable matchers that reproduce the backtracking
behaviour of the specific patterns.
-/

namespace OSAA

/-- Python exception kinds reachable in the embedded code paths. -/
inductive PyErr where
  | keyError
  | typeError
  | valueError
  deriving DecidableEq, Repr

/-- Value of a decimal digit string (used by the model of `int(...)`). -/
def digitsToNat (cs : List Char) : Nat :=
  cs.foldl (fun a c => a * 10 + (c.toNat - '0'.toNat)) 0

/-- Model of Python `int(s)` on `str` arguments: strip surrounding
whitespace, allow one optional sign, then require a nonempty run of
decimal digits.  `none` models the `ValueError` that `int` raises
otherwise.  (Underscore digit grouping and non-ASCII digits are outside
the inputs this repository feeds to `int`.) -/
def pyInt (s : String) : Option Int :=
  let cs := ((s.toList.dropWhile Char.isWhitespace).reverse.dropWhile
      Char.isWhitespace).reverse
  match cs with
  | '-' :: rest =>
      if rest ≠ [] ∧ rest.all Char.isDigit then
        some (-(digitsToNat rest : Int))
      else none
  | '+' :: rest =>
      if rest ≠ [] ∧ rest.all Char.isDigit then some (digitsToNat rest : Int)
      else none
  | rest =>
      if rest ≠ [] ∧ rest.all Char.isDigit then some (digitsToNat rest : Int)
      else none

/-! ## Rate-limited request gate (`util/ratelimited_github.py`) -/

/-- One rate-limit record as cached by `RateLimitedGitHubSession`:
the three `X-RateLimit-*` values.  Values coming from response headers
are strings; `int(...)` is applied at the use sites
(`_wait_for_ratelimit`), exactly as in the source. -/
structure RateRecord where
  limit : String
  remaining : String
  reset : String
  deriving DecidableEq, Repr

/-- `self._ratelimit_cache`: a dict from resource name to record,
modelled as an insertion-ordered association list with unique keys. -/
abbrev Cache := List (String × RateRecord)

/-- Dict lookup (`cache[resource]` / `resource in cache`). -/
def cacheLookup (c : Cache) (k : String) : Option RateRecord :=
  (List.find? (fun p => p.1 = k) c).map (fun p => p.2)

/-- Dict update `cache[resource] = v`: overwrite in place if the key is
present, else append (Python dicts keep first-insertion order). -/
def cacheUpdate (c : Cache) (k : String) (v : RateRecord) : Cache :=
  if (List.find? (fun p => p.1 = k) c).isSome then
    List.map (fun p => if p.1 = k then (k, v) else p) c
  else c ++ [(k, v)]

/-- Response headers: `requests.structures.CaseInsensitiveDict`,
modelled as an association list with case-insensitive key lookup. -/
abbrev Headers := List (String × String)

/-- Python `str.lower()` on the ASCII header names involved. -/
def pyLower (s : String) : String :=
  ⟨s.toList.map Char.toLower⟩

/-- Case-insensitive header lookup (`headers.get(name)`):
`CaseInsensitiveDict` compares lowercased keys. -/
def hGet (h : Headers) (k : String) : Option String :=
  (List.find? (fun p => pyLower p.1 = pyLower k) h).map (fun p => p.2)

def RATELIMIT_LIMIT_HEADER : String := "X-RateLimit-Limit"
def RATELIMIT_REMAINING_HEADER : String := "X-RateLimit-Remaining"
def RATELIMIT_RESET_HEADER : String := "X-RateLimit-Reset"

/-- `_has_ratelimit_headers`: all three rate-limit headers present. -/
def hasRatelimitHeaders (h : Headers) : Bool :=
  (hGet h RATELIMIT_LIMIT_HEADER).isSome &&
  (hGet h RATELIMIT_REMAINING_HEADER).isSome &&
  (hGet h RATELIMIT_RESET_HEADER).isSome

/-- `_cache_ratelimit_headers`: overwrite the record for `resource` from
the response headers when all three headers are present, otherwise leave
the cache untouched. -/
def cacheRatelimitHeaders (c : Cache) (h : Headers) (resource : String) :
    Cache :=
  if hasRatelimitHeaders h then
    cacheUpdate c resource
      { limit := (hGet h RATELIMIT_LIMIT_HEADER).getD ""
        remaining := (hGet h RATELIMIT_REMAINING_HEADER).getD ""
        reset := (hGet h RATELIMIT_RESET_HEADER).getD "" }
  else c

/-- The `/rate_limit` endpoint, abstracted: `some resources` models a
200 response whose JSON has a `resources` member (a map from resource
name to record), `none` models any failing answer (in which case
`_fill_ratelimit_cache` logs and leaves the cache as it is). -/
abbrev ServerResources := Option Cache

/-- `_fill_ratelimit_cache`: replace the whole cache by the server's
`resources` map on success; leave it unchanged on failure. -/
def fillRatelimitCache (server : ServerResources) (c : Cache) : Cache :=
  match server with
  | some m => m
  | none => c

/-- `_get_ratelimit(resource)`: use the cache when it is nonempty and
holds `resource`; otherwise fill the cache from the server first.  The
final `self._ratelimit_cache[resource]` raises `KeyError` when the
resource is still absent.  The returned `Bool` records whether a server
fetch happened. -/
def getRatelimit (c : Cache) (server : ServerResources)
    (resource : String) : Bool × Cache × Except PyErr RateRecord :=
  match cacheLookup c resource, c with
  | some rec, _ :: _ => (false, c, .ok rec)
  | _, _ =>
      let c' := fillRatelimitCache server c
      match cacheLookup c' resource with
      | some rec => (true, c', .ok rec)
      | none => (true, c', .error .keyError)

/-- The sleep performed by `_wait_for_ratelimit` given the consulted
record, as a number of seconds (`.ok 0` = the call returns without
sleeping).  Time is modelled in whole POSIX seconds, so
`int(delta.total_seconds())` is `reset - now`; the source adds a fixed
margin of 2 seconds and sleeps only if the result is positive.
`int(...)` on a malformed string raises `ValueError`. -/
def waitTime (rec : RateRecord) (now : Int) : Except PyErr Int :=
  match pyInt rec.remaining with
  | none => .error .valueError
  | some rem =>
      if rem < 1 then
        match pyInt rec.reset with
        | none => .error .valueError
        | some rst =>
            let w := rst - now + 2
            .ok (if w > 0 then w else 0)
      else .ok 0

/-- `_wait_for_ratelimit(resource)`: consult `_get_ratelimit` and sleep
according to `waitTime`.  Returns (fetched-from-server?, new cache,
seconds slept or exception). -/
def waitForRatelimit (c : Cache) (server : ServerResources)
    (resource : String) (now : Int) : Bool × Cache × Except PyErr Int :=
  match getRatelimit c server resource with
  | (f, c', .error e) => (f, c', .error e)
  | (f, c', .ok rec) => (f, c', waitTime rec now)

/-- An HTTP response as consumed by `request`: status code and headers.
(`requests` responses are never `None` here.) -/
structure Resp where
  status : Nat
  headers : Headers
  deriving DecidableEq, Repr

/-- One iteration's outcome of `super().request(...)` inside the retry
loop: either a response or a raised `ConnectionError`. -/
inductive Outcome where
  | resp : Resp → Outcome
  | connErr : Outcome
  deriving DecidableEq, Repr

/-- The `while True` retry loop of `RateLimitedGitHubSession.request`,
driven by the (finite prefix of the) stream of transport outcomes:
* a `ConnectionError` is logged, slept over, and retried;
* a 403 response with a `Retry-After` header sleeps `int(header) + 1`
  and retries (a malformed header makes `int` raise `ValueError`);
* a 403 response without that header refreshes the cache from the
  server, waits for the rate limit again, and retries;
* any other response breaks the loop; its headers are recorded in the
  cache and it is returned.
`.ok none` means the outcome prefix was exhausted while still retrying
(the source loops forever on an endless failure stream). -/
def requestLoop (server : ServerResources) (resource : String)
    (now : Int) : Cache → List Outcome → Except PyErr (Option (Resp × Cache))
  | _, [] => .ok none
  | c, .connErr :: rest => requestLoop server resource now c rest
  | c, .resp r :: rest =>
      if r.status = 403 ∧ (hGet r.headers "Retry-After").isSome then
        match pyInt ((hGet r.headers "Retry-After").getD "") with
        | none => .error .valueError
        | some _ => requestLoop server resource now c rest
      else if r.status = 403 then
        let c' := fillRatelimitCache server c
        match waitForRatelimit c' server resource now with
        | (_, _, .error e) => .error e
        | (_, c'', .ok _) => requestLoop server resource now c'' rest
      else .ok (some (r, cacheRatelimitHeaders c r.headers resource))

/-- `RateLimitedGitHubSession.request` for a URL other than the
`rate_limit` endpoint (`resource` is the precomputed result of
`_resource_from_url`): first `_wait_for_ratelimit`, then the retry
loop. -/
def request (c : Cache) (server : ServerResources) (resource : String)
    (now : Int) (outcomes : List Outcome) :
    Except PyErr (Option (Resp × Cache)) :=
  match waitForRatelimit c server resource now with
  | (_, _, .error e) => .error e
  | (_, c', .ok _) => requestLoop server resource now c' outcomes

/-- The first outcome in the stream that makes the retry loop stop:
the first response whose status is not 403. -/
def firstSuccess : List Outcome → Option Resp
  | [] => none
  | .connErr :: rest => firstSuccess rest
  | .resp r :: rest => if r.status = 403 then firstSuccess rest else some r

/-! ## Repository deduplication (`subcommands/match_packages.py`) -/

/-- The fields of `Repo.meta_data` (`util/github_repo.py`) that
`deduplicate` consumes. -/
structure RepoInfo where
  full_name : String
  fork : Bool
  forks_count : Int
  watchers_count : Int
  subscribers_count : Int
  deriving DecidableEq, Repr

/-- A dynamically-typed Python value as it occurs in the comparison
`r[metric] == max_value` of `deduplicate`: either an `int` (a metric
value) or a `dict` (a repository's metadata). -/
inductive PyVal where
  | int : Int → PyVal
  | dict : RepoInfo → PyVal
  deriving DecidableEq, Repr

/-- Python `==` on such values: values of distinct types (`int` vs
`dict`) compare unequal without raising. -/
def pyEq : PyVal → PyVal → Bool
  | .int a, .int b => a = b
  | .dict a, .dict b => a = b
  | _, _ => false

/-- Python `max(x :: xs, key=f)`: the first element attaining the
maximal key (later elements replace the current best only when strictly
greater). -/
def pyMaxBy (f : RepoInfo → Int) (x : RepoInfo) (xs : List RepoInfo) :
    RepoInfo :=
  xs.foldl (fun best r => if f r > f best then r else best) x

/-- One step of the dict comprehension
`{repo['full_name']: repo for repo in repos}`: overwrite the value at
the first-insertion position when the key exists, else append. -/
def insertByName (acc : List RepoInfo) (r : RepoInfo) : List RepoInfo :=
  if acc.any (fun x => x.full_name = r.full_name) then
    acc.map (fun x => if x.full_name = r.full_name then r else x)
  else acc ++ [r]

/-- `.values()` of the dict comprehension keyed by `full_name`. -/
def dedupByName (l : List RepoInfo) : List RepoInfo :=
  l.foldl insertByName []

/-- The metric cascade of `deduplicate`
(`for metric in ['forks_count', 'watchers_count', 'subscribers_count']`),
with the metric strings embedded as the corresponding `meta_data`
projections.  Mirrors the source faithfully, including that
`max_value = max(repos, key=lambda r: r[metric])` binds the repository
dict itself, so the subsequent filter compares an `int` with a `dict`. -/
def dedupLoop : List (RepoInfo → Int) → List RepoInfo → Option String
  | [], repos =>
      match repos with
      | [r] => some r.full_name
      | _ => none
  | m :: rest, repos =>
      match repos with
      | [r] => some r.full_name
      | [] => none
      | r :: rs =>
          let maxValue := pyMaxBy m r rs
          dedupLoop rest
            ((r :: rs).filter (fun x => pyEq (.int (m x)) (.dict maxValue)))

/-- `deduplicate(repo_names, repo_verifier)`.  `env` abstracts
`repo_verifier.get_repo_info`: `none` models an unreachable repository.
The early-return branches evaluate `repo_names[0]['full_name']` where
`repo_names[0]` is a `str`, which raises
`TypeError: string indices must be integers`. -/
def deduplicate (repo_names : List String)
    (env : String → Option RepoInfo) : Except PyErr (Option String) :=
  if repo_names.length = 1 then .error .typeError
  else
    let fetched := repo_names.map env
    let repos := dedupByName (fetched.filterMap id)
    if repo_names.length = 1 then .error .typeError
    else
      let repos := repos.filter (fun r => !r.fork)
      .ok (dedupLoop
        [(fun r => r.forks_count), (fun r => r.watchers_count),
         (fun r => r.subscribers_count)] repos)

/-! ## Repository identifiers (`util/github_repo.py`) -/

/-- Characters matched by `[a-z0-9-]` under `re.IGNORECASE`
(owner part of `RepoVerifier.FULL_NAME_PATTERN`): ASCII letters of
either case, digits and hyphen, plus the four non-ASCII letters that
Python's case-insensitive matching folds into `[a-z]` — İ (U+0130),
ı (U+0131), ſ (U+017F) and K (U+212A). -/
def ownerChar (c : Char) : Bool :=
  c.isLower || c.isUpper || c.isDigit || c = '-' ||
  c = '\u0130' || c = '\u0131' || c = '\u017F' || c = '\u212A'

/-- Characters matched by `[a-z0-9_\.-]` under `re.IGNORECASE`
(name part of `RepoVerifier.FULL_NAME_PATTERN`): as `ownerChar` with
underscore and dot, including the same four case-fold letters. -/
def nameChar (c : Char) : Bool :=
  c.isLower || c.isUpper || c.isDigit || c = '_' || c = '.' || c = '-' ||
  c = '\u0130' || c = '\u0131' || c = '\u017F' || c = '\u212A'

/-- Matcher for
`FULL_NAME_PATTERN = re.compile(r'^([a-z0-9-]+)\/([a-z0-9_\.-]+)$', re.I)`
applied with `.match`: both character classes exclude `/` and the
newline, so the greedy `+` repetitions are plain maximal munch, and
Python's `$` (without `re.M`) accepts the end of the string or a single
final newline. -/
def matchFullName (s : String) : Option (String × String) :=
  let cs := s.toList
  let o := cs.takeWhile ownerChar
  if o.isEmpty then none
  else
    match cs.drop o.length with
    | [] => none
    | c :: rest =>
        if c = '/' then
          let n := rest.takeWhile nameChar
          if n.isEmpty then none
          else
            match rest.drop n.length with
            | [] => some (⟨o⟩, ⟨n⟩)
            | [c'] => if c' = '\n' then some (⟨o⟩, ⟨n⟩) else none
            | _ => none
        else none

/-- `RepoVerifier.full_name_to_parts`: return the two captured groups on
a match, raise `ValueError` otherwise. -/
def full_name_to_parts (s : String) : Except PyErr (String × String) :=
  match matchFullName s with
  | some p => .ok p
  | none => .error .valueError

/-- The pattern as the spec words it, for comparison with the source's
case-insensitive `FULL_NAME_PATTERN`: a fixed
lowercase-alphanumeric-with-separators pattern
`^([a-z0-9-]+)/([a-z0-9_.-]+)$` taken literally (lowercase letters
only, the whole string). -/
def specLowercaseFullName (s : String) : Bool :=
  let cs := s.toList
  let lowerOwner : Char → Bool := fun c => c.isLower || c.isDigit || c = '-'
  let lowerName : Char → Bool :=
    fun c => c.isLower || c.isDigit || c = '_' || c = '.' || c = '-'
  let o := cs.takeWhile lowerOwner
  !o.isEmpty &&
    match cs.drop o.length with
    | '/' :: rest =>
        let n := rest.takeWhile lowerName
        !n.isEmpty && (rest.drop n.length).isEmpty
    | _ => false

/-! ## Shortstat parsing (`util/bare_git.py`, `GitHistory._parse_stats`) -/

/-- The record `_parse_stats` produces. -/
structure Stats where
  additions : Nat
  deletions : Nat
  total : Nat
  deriving DecidableEq, Repr

/-- Characters that end a line for Python `str.splitlines`. -/
def isLineBreak (c : Char) : Bool :=
  c = '\n' || c = '\r' || c = '\x0b' || c = '\x0c' ||
  c = '\x1c' || c = '\x1d' || c = '\x1e' || c = '\x85' ||
  c = '\u2028' || c = '\u2029'

/-- Python `str.splitlines()`: split on line-break characters, with
`\r\n` counting as a single break and no trailing empty line.  The
`skipNl` flag records that the previous character was a `\r` that
already ended a line, so an immediately following `\n` is swallowed. -/
def pySplitlinesAux : List Char → List Char → Bool → List (List Char)
  | [], acc, _ => if acc.isEmpty then [] else [acc.reverse]
  | c :: cs, acc, skipNl =>
      if skipNl ∧ c = '\n' then pySplitlinesAux cs acc false
      else if c = '\r' then acc.reverse :: pySplitlinesAux cs [] true
      else if isLineBreak c then acc.reverse :: pySplitlinesAux cs [] false
      else pySplitlinesAux cs (c :: acc) false

def pySplitlines (cs : List Char) : List (List Char) :=
  pySplitlinesAux cs [] false

/-- Match a literal character sequence (regex literal text). -/
def lit : List Char → List Char → Option (List Char)
  | [], cs => some cs
  | p :: ps, c :: cs => if c = p then lit ps cs else none
  | _ :: _, [] => none

/-- Greedy `([0-9]+)`: a nonempty maximal run of digits and its value.
(The character following the group in `STATS_REGEX` is never a digit,
so maximal munch needs no backtracking.) -/
def digits1 (cs : List Char) : Option (Nat × List Char) :=
  let ds := cs.takeWhile Char.isDigit
  if ds.isEmpty then none
  else some (digitsToNat ds, cs.drop ds.length)

/-- Regex `...`: exactly three characters, each matched by `.` (any
character except a newline). -/
def any3 (cs : List Char) : Option (List Char) :=
  match cs with
  | a :: b :: c :: rest =>
      if a ≠ '\n' ∧ b ≠ '\n' ∧ c ≠ '\n' then some rest else none
  | _ => none

/-- Regex `s?` followed by a continuation, with backtracking: try
consuming an `s` first; if the continuation then fails, retry without
consuming it. -/
def optS (k : List Char → Option (List Char)) (cs : List Char) :
    Option (List Char) :=
  match cs with
  | 's' :: rest =>
      match k rest with
      | some r => some r
      | none => k cs
  | _ => k cs

/-- One optional group `(?:, ([0-9]+) <word>s?...)?` of `STATS_REGEX`
(`word` is `insertion` or `deletion`): on failure anywhere inside, the
group matches the empty string and captures nothing. -/
def optCountGroup (word : List Char) (cs : List Char) :
    Option Nat × List Char :=
  let attempt : Option (Nat × List Char) := do
    let r ← lit [',', ' '] cs
    let (n, r) ← digits1 r
    let r ← lit (' ' :: word) r
    let r ← optS any3 r
    pure (n, r)
  match attempt with
  | some (n, r) => (some n, r)
  | none => (none, cs)

/-- Matcher for `GitHistory.STATS_REGEX`
`(?: ([0-9]+) files? changed)(?:, ([0-9]+) insertions?...)?`
`(?:, ([0-9]+) deletions?...)?` applied with `.match` (anchored at the
start of the line, free at the end).  Returns the three captured groups.
-/
def matchStats (cs : List Char) : Option (Nat × Option Nat × Option Nat) := do
  let r ← lit [' '] cs
  let (n1, r) ← digits1 r
  let r ← lit " file".toList r
  let r ← optS (lit " changed".toList) r
  let (ins, r) := optCountGroup "insertion".toList r
  let (del, _) := optCountGroup "deletion".toList r
  pure (n1, ins, del)

/-- The loop body of `_parse_stats`: return the record for the first
line that matches `STATS_REGEX` (`int(group or 0)` turns an absent group
into 0 and `total` is their sum); all-zero counts if no line matches. -/
def statsOfLines : List (List Char) → Stats
  | [] => { additions := 0, deletions := 0, total := 0 }
  | l :: ls =>
      match matchStats l with
      | some (_, ins, del) =>
          { additions := ins.getD 0
            deletions := del.getD 0
            total := ins.getD 0 + del.getD 0 }
      | none => statsOfLines ls

/-- `GitHistory._parse_stats(stats_str)`. -/
def parseStats (s : String) : Stats :=
  statsOfLines (pySplitlines s.toList)

/-! ## Recursive search (`util/recursive_search.py`) -/

/-- The values `json.JSONDecoder` may return. -/
inductive Json where
  | obj : List (String × Json) → Json
  | arr : List Json → Json
  | str : String → Json
  | num : Int → Json
  | bool : Bool → Json
  | null : Json

/-- A path segment: a dict key or a list index. -/
inductive Seg where
  | key : String → Seg
  | idx : Nat → Seg
  deriving DecidableEq, Repr

abbrev Path := List Seg

/-- Characters matched by `[a-z0-9_-]` under the `(?i)` flag of
`GITHUB_LINK_PATTERN`: ASCII letters of either case, digits, `_` and
`-`, plus the four non-ASCII letters that Python folds into `[a-z]`
under `IGNORECASE` — İ (U+0130), ı (U+0131), ſ (U+017F) and
K (U+212A). -/
def ghNameChar (c : Char) : Bool :=
  c.isLower || c.isUpper || c.isDigit || c = '_' || c = '-' ||
  c = '\u0130' || c = '\u0131' || c = '\u017F' || c = '\u212A'

/-- Python case folding as `re.IGNORECASE` applies it to the characters
this pattern can mention: ASCII letters lowercase, and the case-fold
letters İ/ı, ſ and K are identified with `i`, `s` and `k`. -/
def pyFold (c : Char) : Char :=
  if c = '\u0130' || c = '\u0131' then 'i'
  else if c = '\u017F' then 's'
  else if c = '\u212A' then 'k'
  else c.toLower

/-- Case-insensitive character comparison (the `(?i)` flag). -/
def ciEq (a b : Char) : Bool :=
  pyFold a = pyFold b

/-- Match a literal case-insensitively, returning the rest. -/
def matchCI : List Char → List Char → Option (List Char)
  | [], cs => some cs
  | p :: ps, c :: cs => if ciEq c p then matchCI ps cs else none
  | _ :: _, [] => none

/-- One anchored attempt of
`GITHUB_LINK_PATTERN = re.compile(r'(?i)github\.com(\/|%2F)([a-z0-9_-]+)\1([a-z0-9_-]+)')`:
literal `github.com`, the separator alternation (capturing the matched
text, since the backreference `\1` re-matches it case-insensitively),
then the two greedy name groups.  The name class excludes both `/` and
`%`, so maximal munch is exact.  Returns the formatted match
`'{1}/{2}'.format(*groups)` and the input after the match. -/
def tryGithubMatch (cs : List Char) : Option (String × List Char) :=
  match matchCI "github.com".toList cs with
  | none => none
  | some r =>
      let sepres : Option (List Char × List Char) :=
        match r with
        | '/' :: t => some (['/'], t)
        | _ =>
            match matchCI "%2F".toList r with
            | some t => some (r.take 3, t)
            | none => none
      match sepres with
      | none => none
      | some (sep, r1) =>
          let g2 := r1.takeWhile ghNameChar
          if g2.isEmpty then none
          else
            match matchCI sep (r1.drop g2.length) with
            | none => none
            | some r2 =>
                let g3 := r2.takeWhile ghNameChar
                if g3.isEmpty then none
                else some (⟨g2⟩ ++ "/" ++ ⟨g3⟩, r2.drop g3.length)

/-- The scan of `re.findall`: try an anchored match at each position,
resuming after the end of each (nonempty) match.  Fuelled by the input
length, which suffices because every step consumes at least one
character. -/
def ghScan : Nat → List Char → List String
  | 0, _ => []
  | _ + 1, [] => []
  | fuel + 1, c :: cs =>
      match tryGithubMatch (c :: cs) with
      | some (m, rest) => m :: ghScan fuel rest
      | none => ghScan fuel cs

/-- `re.findall(GITHUB_LINK_PATTERN, s)` with the match-string
formatting of `GithubLinkSearch._search_str`. -/
def ghFindAll (s : String) : List String :=
  ghScan s.toList.length s.toList

mutual
/-- `RecursiveSearch.search` (as specialised by a `_search_str`
override that yields the listed match strings): depth-first over dicts
(in item order), lists (in index order) and strings; numbers, booleans
and `None` are ignored.  Results carry the traversal path. -/
def searchJson (findAll : String → List String) :
    Json → Path → List (Path × String)
  | .obj kvs, p => searchObj findAll kvs p
  | .arr xs, p => searchArr findAll xs 0 p
  | .str s, p => (findAll s).map (fun m => (p, m))
  | .num _, _ => []
  | .bool _, _ => []
  | .null, _ => []

/-- `_search_dict`: recurse on each value with the key appended. -/
def searchObj (findAll : String → List String) :
    List (String × Json) → Path → List (Path × String)
  | [], _ => []
  | (k, v) :: rest, p =>
      searchJson findAll v (p ++ [.key k]) ++ searchObj findAll rest p

/-- `_search_list`: recurse on each item with its index appended. -/
def searchArr (findAll : String → List String) :
    List Json → Nat → Path → List (Path × String)
  | [], _, _ => []
  | x :: rest, i, p =>
      searchJson findAll x (p ++ [.idx i]) ++ searchArr findAll rest (i + 1) p
end

/-- `GithubLinkSearch().search(haystack)` from the root path `()`. -/
def githubLinkSearch (j : Json) : List (Path × String) :=
  searchJson ghFindAll j []

/-- Leaves that `RecursiveSearch.search` ignores (numbers, booleans and
`None`). -/
def Json.isScalar : Json → Bool
  | .num _ => true
  | .bool _ => true
  | .null => true
  | _ => false

/-! ## `Repo.count_commits` (`util/github_repo.py`) -/

/-- `github3.models.GitHubError`, reduced to the HTTP code the source
inspects. -/
structure GitHubError where
  code : Nat
  deriving DecidableEq, Repr

/-- The part of a URL that `urlparse(url).query` yields: the text after
the first `?` of the pre-fragment part. -/
def urlQuery (url : String) : String :=
  let beforeFrag := url.toList.takeWhile (fun c => c ≠ '#')
  match beforeFrag.dropWhile (fun c => c ≠ '?') with
  | [] => ""
  | _ :: rest => ⟨rest⟩

/-- Split a list on separators satisfying `p` (Python `str.split` on a
single separator class). -/
def splitOn (p : Char → Bool) : List Char → List (List Char)
  | [] => [[]]
  | c :: cs =>
      if p c then [] :: splitOn p cs
      else
        match splitOn p cs with
        | [] => [[c]]
        | l :: ls => (c :: l) :: ls

/-- `urllib.parse.parse_qs` with default arguments, restricted to what
`_parse_num_pages` consumes: split the query on `&`/`;`, keep only
`name=value` pairs with a nonempty value, replace `+` by a space.
(Percent-decoding is not modelled: the `page` values in GitHub `Link`
headers are plain digits.) -/
def parseQs (query : String) : List (String × String) :=
  (splitOn (fun c => c = '&' || c = ';') query.toList).filterMap
    (fun pair =>
      if pair.isEmpty then none
      else
        let name := pair.takeWhile (fun c => c ≠ '=')
        match pair.drop name.length with
        | [] => none
        | _ :: value =>
            if value.isEmpty then none
            else
              let plusToSpace := List.map (fun c => if c = '+' then ' ' else c)
              some (⟨plusToSpace name⟩, ⟨plusToSpace value⟩))

/-- All values listed under key `k` (`parse_qs` returns lists). -/
def qsGetAll (q : List (String × String)) (k : String) : List String :=
  (q.filter (fun p => p.1 = k)).map (fun p => p.2)

/-- `Repo._parse_num_pages(url)`: the first `page` query value as an
int, defaulting to 1 when the parameter is absent.  `int(...)` on a
non-numeric value raises `ValueError`. -/
def parseNumPages (url : String) : Except PyErr Int :=
  let page_arg := qsGetAll (parseQs (urlQuery url)) "page"
  match (if page_arg.isEmpty then ["1"] else page_arg) with
  | [] => .ok 1
  | v :: _ =>
      match pyInt v with
      | some n => .ok n
      | none => .error .valueError

/-- Errors `count_commits` can propagate. -/
inductive CCError where
  | gh : GitHubError → CCError
  | py : PyErr → CCError
  deriving DecidableEq, Repr

/-- What the paginated commit iterator exposes after its first
`.next()` succeeds: the `last` link of the first response (absent when
there is a single page), `params['per_page']`, and the JSON lengths of
the first response and of the separately fetched last page. -/
structure FirstPage where
  lastLinkUrl : Option String
  perPage : Nat
  firstPageJsonLen : Nat
  lastPageJsonLen : Nat
  deriving DecidableEq, Repr

/-- `Repo.count_commits(stop_at)`.  `firstReq` abstracts the first
`page_iterator.next()`: a `GitHubError` or the first page's data.
Returns (number of HTTP requests issued, result).  Creating the
iterator issues no request; `.next()` is the first request; fetching
the last page (when needed) is the second. -/
def countCommits (stop_at : Int) (firstReq : Except GitHubError FirstPage) :
    Nat × Except CCError Int :=
  if stop_at = 0 then (0, .ok 0)
  else
    match firstReq with
    | .error e => if e.code = 409 then (1, .ok 0) else (1, .error (.gh e))
    | .ok pd =>
        let lastRel := pd.lastLinkUrl.getD ""
        match parseNumPages lastRel with
        | .error e => (1, .error (.py e))
        | .ok numPages =>
            if numPages = 1 ∨ (0 < stop_at ∧ stop_at ≤ (pd.perPage : Int)) then
              (1, .ok ((pd.perPage : Int) * (numPages - 1) +
                (pd.firstPageJsonLen : Int)))
            else
              (2, .ok ((pd.perPage : Int) * (numPages - 1) +
                (pd.lastPageJsonLen : Int)))

/-! ## Predicates used in theorem statements -/

/-- A cached record whose `remaining` and `reset` values are numeric
(so `int(...)` does not raise inside `_wait_for_ratelimit`). -/
def recParses (rec : RateRecord) : Prop :=
  (pyInt rec.remaining).isSome = true ∧ (pyInt rec.reset).isSome = true

instance (rec : RateRecord) : Decidable (recParses rec) :=
  inferInstanceAs (Decidable (_ ∧ _))

/-- A transport outcome that does not make the retry loop raise: any
connection error, any non-403 response, and a 403 response whose
`Retry-After` header (if present) is numeric. -/
def goodOutcome : Outcome → Bool
  | .connErr => true
  | .resp r =>
      if r.status = 403 then
        (hGet r.headers "Retry-After").all (fun v => (pyInt v).isSome)
      else true

/-- Python whitespace characters in the ASCII/Latin-1 range (the
characters `str.strip`/`str.splitlines` treat as blank or line breaks;
exotic Unicode spaces are outside the inputs considered). -/
def pyWhitespace (c : Char) : Bool :=
  c.isWhitespace || c = '\x0b' || c = '\x0c' || c = '\x1c' ||
  c = '\x1d' || c = '\x1e' || c = '\x1f' || c = '\x85'

/-! ## Helper lemmas -/

theorem cacheLookup_isSome_ne_nil {c : Cache} {k : String} {rec : RateRecord}
    (h : cacheLookup c k = some rec) : c ≠ [] := by
  intro hnil
  subst hnil
  simp [cacheLookup] at h

theorem getRatelimit_hit {c : Cache} {server : ServerResources} {k : String}
    {rec : RateRecord} (h : cacheLookup c k = some rec) :
    getRatelimit c server k = (false, c, .ok rec) := by
  cases c with
  | nil => simp [cacheLookup] at h
  | cons a as => simp [getRatelimit, h]

theorem getRatelimit_fill_fetches (c' : Cache) (k : String) :
    (match cacheLookup c' k with
     | some rec => (true, c', (Except.ok rec : Except PyErr RateRecord))
     | none => (true, c', Except.error PyErr.keyError)).1 = true := by
  cases cacheLookup c' k <;> simp

theorem getRatelimit_miss_fetches {c : Cache} {server : ServerResources}
    {k : String} (h : cacheLookup c k = none) :
    (getRatelimit c server k).1 = true := by
  cases c with
  | nil => exact getRatelimit_fill_fetches _ _
  | cons a as =>
      unfold getRatelimit
      rw [h]
      exact getRatelimit_fill_fetches _ _

theorem waitTime_ok_of_parses {rec : RateRecord} (h : recParses rec)
    (now : Int) : ∃ w, waitTime rec now = .ok w := by
  obtain ⟨h1, h2⟩ := h
  unfold waitTime
  cases hrem : pyInt rec.remaining with
  | none => rw [hrem] at h1; simp at h1
  | some rem =>
      cases hrst : pyInt rec.reset with
      | none => rw [hrst] at h2; simp at h2
      | some rst =>
          by_cases hlt : rem < 1 <;> simp [hlt]

theorem waitForRatelimit_hit {c : Cache} (server : ServerResources)
    {k : String} {rec : RateRecord} (h : cacheLookup c k = some rec)
    (hp : recParses rec) (now : Int) :
    ∃ w, waitForRatelimit c server k now = (false, c, .ok w) := by
  obtain ⟨w, hw⟩ := waitTime_ok_of_parses hp now
  exact ⟨w, by simp [waitForRatelimit, getRatelimit_hit h, hw]⟩

theorem waitTime_eq_of_parses {rec : RateRecord} {rem rst : Int}
    (now : Int) (hrem : pyInt rec.remaining = some rem)
    (hrst : pyInt rec.reset = some rst) :
    waitTime rec now =
      .ok (if rem < 1 then (if rst - now + 2 > 0 then rst - now + 2 else 0)
           else 0) := by
  unfold waitTime
  rw [hrem, hrst]
  by_cases h : rem < 1 <;> simp [h]

/-- C2 (corrected): `_wait_for_ratelimit` sleeps exactly when the
cached `remaining` is below 1 AND the computed wait
`reset − now + margin` is positive.  In particular: with
`remaining = 0` and `reset = now + 5` it sleeps `7 = 5 + 2` seconds
(past the reset time), and with `remaining ≥ 1` it returns without
sleeping.  The bare "sleeps iff remaining < 1" of the claim fails when
`reset` already lies in the past (see the counterexample). -/
theorem wait_for_ratelimit_sleep_spec (rec : RateRecord)
    (now rem rst : Int) (hrem : pyInt rec.remaining = some rem)
    (hrst : pyInt rec.reset = some rst) :
    ((rem = 0 ∧ rst = now + 5) → waitTime rec now = .ok 7) ∧
    (1 ≤ rem → waitTime rec now = .ok 0) ∧
    (∀ w, waitTime rec now = .ok w → (0 < w ↔ rem < 1 ∧ now < rst + 2)) := by
  rw [waitTime_eq_of_parses now hrem hrst]
  refine ⟨?_, ?_, ?_⟩
  · rintro ⟨h0, h5⟩
    subst h0; subst h5
    simp only [Except.ok.injEq]
    split_ifs <;> omega
  · intro h1
    simp only [Except.ok.injEq]
    split_ifs <;> omega
  · intro w hw
    simp only [Except.ok.injEq] at hw
    subst hw
    split_ifs <;> omega

/-- Witness for `wait_for_ratelimit_sleep_spec` at a concrete record:
`remaining = "0"`, `reset = "15"`, `now = 10`. -/
theorem wait_for_ratelimit_sleep_spec_witness :
    waitTime { limit := "60", remaining := "0", reset := "15" } 10 =
      .ok 7 := by
  exact (wait_for_ratelimit_sleep_spec
    { limit := "60", remaining := "0", reset := "15" } 10 0 15 rfl rfl).1
    ⟨rfl, by norm_num⟩

/-- Counterexample to C2 as stated: with `remaining = "0"` (below 1)
but `reset = "0"` already in the past at `now = 100`, the call returns
without sleeping, so "sleeps if and only if remaining is below 1" is
false. -/
theorem wait_for_ratelimit_stale_reset_counterexample :
    waitTime { limit := "5000", remaining := "0", reset := "0" } 100 =
        .ok 0 ∧
      pyInt "0" = some 0 ∧ (0 : Int) < 1 :=
  ⟨rfl, rfl, by norm_num⟩

/-- C3 (corrected): `_get_ratelimit` refreshes from the server exactly
when the resource is absent from the cache; a cached record is returned
as-is regardless of whether its `reset` time has passed (the claimed
staleness-triggered refresh does not exist — see the counterexample). -/
theorem get_ratelimit_refresh_policy (c : Cache) (server : ServerResources)
    (resource : String) :
    (∀ rec, cacheLookup c resource = some rec →
      getRatelimit c server resource = (false, c, .ok rec)) ∧
    (cacheLookup c resource = none →
      (getRatelimit c server resource).1 = true) :=
  ⟨fun _ h => getRatelimit_hit h, fun h => getRatelimit_miss_fetches h⟩

/-- Witness for `get_ratelimit_refresh_policy`: a cache hit is used
without a fetch; an empty cache triggers a fetch. -/
theorem get_ratelimit_refresh_policy_witness :
    getRatelimit [("core", ⟨"5000", "7", "10"⟩)] none "core" =
      (false, [("core", ⟨"5000", "7", "10"⟩)],
        .ok (⟨"5000", "7", "10"⟩ : RateRecord)) ∧
    (getRatelimit ([] : Cache) none "core").1 = true :=
  ⟨(get_ratelimit_refresh_policy _ none "core").1 _ rfl,
   (get_ratelimit_refresh_policy [] none "core").2 rfl⟩

/-- Counterexample to C3 as stated: the gate consults a cached `core`
record whose `reset` (10) lies strictly before `now` (100) and decides
(no sleep, since the computed wait is non-positive) without any fetch
from the server — the fetched-flag is `false` and the cache is
unchanged. -/
theorem get_ratelimit_stale_record_counterexample :
    waitForRatelimit
        [("core", { limit := "5000", remaining := "0", reset := "10" })]
        none "core" 100 =
      (false,
        [("core", { limit := "5000", remaining := "0", reset := "10" })],
        .ok 0) ∧
      pyInt "10" = some 10 ∧ (10 : Int) < 100 :=
  ⟨rfl, rfl, by norm_num⟩

/-- C4 (code bug): on a single-element candidate list `deduplicate`
takes the early-return branch `repo_names[0]['full_name']`, which
indexes a `str` with a string key and raises `TypeError` instead of
returning the candidate's name as the function's docstring promises. -/
theorem deduplicate_singleton_raises_type_error
    (env : String → Option RepoInfo) :
    deduplicate ["owner/repo"] env = .error .typeError := rfl

/-- C1 (code bug): two reachable candidates, both not forks, with
`forks_count` 5 versus 3 — the claim (and the docstring's filter
cascade) requires returning `"aa/x"`, but because
`max_value = max(repos, key=...)` binds the repository dict rather than
the metric value, the filter `r[metric] == max_value` compares an `int`
with a `dict`, keeps nothing, and `deduplicate` returns `None`. -/
theorem deduplicate_strict_forks_max_returns_none :
    deduplicate ["aa/x", "bb/y"]
        (fun n =>
          if n = "aa/x" then
            some { full_name := "aa/x", fork := false, forks_count := 5,
                   watchers_count := 100, subscribers_count := 10 }
          else if n = "bb/y" then
            some { full_name := "bb/y", fork := false, forks_count := 3,
                   watchers_count := 7, subscribers_count := 9 }
          else none) = .ok none := rfl

/-- C10: `count_commits` returns 0 for an empty repository instead of
propagating an error: `stop_at = 0` short-circuits to 0 with no HTTP
request issued; a `GitHubError` with code 409 from the first page
request yields 0 after that single request; any other code is
re-raised. -/
theorem count_commits_empty_repo_spec (stop_at : Int)
    (firstReq : Except GitHubError FirstPage) (e : GitHubError) :
    (stop_at = 0 → countCommits stop_at firstReq = (0, .ok 0)) ∧
    (stop_at ≠ 0 → firstReq = .error e → e.code = 409 →
      countCommits stop_at firstReq = (1, .ok 0)) ∧
    (stop_at ≠ 0 → firstReq = .error e → e.code ≠ 409 →
      countCommits stop_at firstReq = (1, .error (.gh e))) := by
  refine ⟨?_, ?_, ?_⟩
  · intro h
    simp [countCommits, h]
  · intro h he hc
    subst he
    simp [countCommits, h, hc]
  · intro h he hc
    subst he
    simp [countCommits, h, hc]

/-- Witness for `count_commits_empty_repo_spec`: the three branches at
concrete inputs. -/
theorem count_commits_empty_repo_spec_witness :
    countCommits 0 (.error { code := 409 }) = (0, .ok 0) ∧
    countCommits (-1) (.error { code := 409 }) = (1, .ok 0) ∧
    countCommits (-1) (.error { code := 500 }) =
      (1, .error (.gh { code := 500 })) :=
  ⟨(count_commits_empty_repo_spec 0 _ { code := 409 }).1 rfl,
   (count_commits_empty_repo_spec (-1) _ { code := 409 }).2.1
     (by norm_num) rfl rfl,
   (count_commits_empty_repo_spec (-1) _ { code := 500 }).2.2
     (by norm_num) rfl (by decide)⟩

theorem find?_map_overwrite (k : String) (v : RateRecord) :
    ∀ c : Cache, (List.find? (fun p => p.1 = k) c).isSome = true →
      (List.map (fun p => if p.1 = k then (k, v) else p) c).find?
        (fun p => p.1 = k) = some (k, v)
  | [], h => by simp at h
  | a :: as, h => by
      by_cases ha : a.1 = k
      · simp [List.find?, ha]
      · have h' : (List.find? (fun p => p.1 = k) as).isSome = true := by
          simpa [List.find?, ha] using h
        simpa [List.find?, ha] using find?_map_overwrite k v as h'

theorem find?_append_singleton (k : String) (v : RateRecord) :
    ∀ c : Cache, List.find? (fun p => p.1 = k) c = none →
      (c ++ [(k, v)]).find? (fun p => p.1 = k) = some (k, v)
  | [], _ => by simp
  | a :: as, hn => by
      by_cases ha : a.1 = k
      · simp [List.find?, ha] at hn
      · have hn' : List.find? (fun p => p.1 = k) as = none := by
          simpa [List.find?, ha] using hn
        simpa [List.find?, ha] using find?_append_singleton k v as hn'

theorem cacheLookup_update_self (c : Cache) (k : String) (v : RateRecord) :
    cacheLookup (cacheUpdate c k v) k = some v := by
  unfold cacheUpdate
  by_cases hf : (List.find? (fun p => p.1 = k) c).isSome = true
  · rw [if_pos hf]
    unfold cacheLookup
    rw [find?_map_overwrite k v c hf]
    rfl
  · rw [if_neg hf]
    unfold cacheLookup
    have hn : List.find? (fun p => p.1 = k) c = none := by
      cases hx : List.find? (fun p => p.1 = k) c with
      | none => rfl
      | some p => rw [hx] at hf; simp at hf
    rw [find?_append_singleton k v c hn]
    rfl

theorem find?_map_overwrite_ne (k r : String) (v : RateRecord)
    (hne : r ≠ k) :
    ∀ c : Cache,
      (List.map (fun p => if p.1 = k then (k, v) else p) c).find?
        (fun p => p.1 = r) = List.find? (fun p => p.1 = r) c
  | [] => rfl
  | a :: as => by
      by_cases ha : a.1 = k
      · have h1 : ¬((k : String) = r) := Ne.symm hne
        have h2 : ¬(a.1 = r) := by rw [ha]; exact Ne.symm hne
        simp [List.find?, ha, h1, h2, find?_map_overwrite_ne k r v hne as]
      · by_cases har : a.1 = r
        · simp [List.find?, ha, har, hne]
        · simp [List.find?, ha, har, find?_map_overwrite_ne k r v hne as]

theorem find?_append_singleton_ne (k r : String) (v : RateRecord)
    (hne : r ≠ k) :
    ∀ c : Cache, (c ++ [(k, v)]).find? (fun p => p.1 = r) =
      List.find? (fun p => p.1 = r) c
  | [] => by simp [List.find?, Ne.symm hne]
  | a :: as => by
      by_cases har : a.1 = r
      · simp [List.find?, har]
      · simp [List.find?, har, find?_append_singleton_ne k r v hne as]

theorem cacheLookup_update_other (c : Cache) (k r : String)
    (v : RateRecord) (hne : r ≠ k) :
    cacheLookup (cacheUpdate c k v) r = cacheLookup c r := by
  unfold cacheUpdate cacheLookup
  by_cases hf : (List.find? (fun p => p.1 = k) c).isSome = true
  · simp [hf, find?_map_overwrite_ne k r v hne c]
  · simp [hf, find?_append_singleton_ne k r v hne c]

/-- C9: `_cache_ratelimit_headers` updates the cached record for the
given resource to exactly the three header values when all three
required headers are present (case-insensitively), leaving every other
resource's entry untouched; when any of the three is missing, the whole
cache is left unchanged. -/
theorem record_response_headers_spec (c : Cache) (h : Headers)
    (resource r : String) :
    (hasRatelimitHeaders h = true →
      cacheLookup (cacheRatelimitHeaders c h resource) resource =
          some { limit := (hGet h RATELIMIT_LIMIT_HEADER).getD ""
                 remaining := (hGet h RATELIMIT_REMAINING_HEADER).getD ""
                 reset := (hGet h RATELIMIT_RESET_HEADER).getD "" } ∧
        (r ≠ resource →
          cacheLookup (cacheRatelimitHeaders c h resource) r =
            cacheLookup c r)) ∧
    (hasRatelimitHeaders h = false →
      cacheRatelimitHeaders c h resource = c) := by
  constructor
  · intro hall
    unfold cacheRatelimitHeaders
    rw [hall]
    simp only [if_true]
    exact ⟨cacheLookup_update_self c resource _,
      fun hne => cacheLookup_update_other c resource r _ hne⟩
  · intro hnone
    unfold cacheRatelimitHeaders
    rw [hnone]
    simp

/-- Witness for `record_response_headers_spec`: a response with all
three headers (one in different letter case) records them for `core`
and leaves `search` untouched; a response missing two of the headers
leaves the cache exactly as it was. -/
theorem record_response_headers_spec_witness :
    cacheLookup
        (cacheRatelimitHeaders [("search", ⟨"30", "30", "99"⟩)]
          [("X-RateLimit-Limit", "60"), ("x-ratelimit-remaining", "59"),
           ("X-RateLimit-Reset", "100")] "core") "core" =
      some ⟨"60", "59", "100"⟩ ∧
    cacheLookup
        (cacheRatelimitHeaders [("search", ⟨"30", "30", "99"⟩)]
          [("X-RateLimit-Limit", "60"), ("x-ratelimit-remaining", "59"),
           ("X-RateLimit-Reset", "100")] "core") "search" =
      cacheLookup [("search", ⟨"30", "30", "99"⟩)] "search" ∧
    cacheRatelimitHeaders [("core", ⟨"60", "59", "100"⟩)]
        [("X-RateLimit-Limit", "60")] "core" =
      [("core", ⟨"60", "59", "100"⟩)] := by
  refine ⟨?_, ?_, ?_⟩
  · exact ((record_response_headers_spec [("search", ⟨"30", "30", "99"⟩)]
      [("X-RateLimit-Limit", "60"), ("x-ratelimit-remaining", "59"),
       ("X-RateLimit-Reset", "100")] "core" "search").1 (by decide)).1
  · exact ((record_response_headers_spec [("search", ⟨"30", "30", "99"⟩)]
      [("X-RateLimit-Limit", "60"), ("x-ratelimit-remaining", "59"),
       ("X-RateLimit-Reset", "100")] "core" "search").1 (by decide)).2
      (by decide)
  · exact (record_response_headers_spec [("core", ⟨"60", "59", "100"⟩)]
      [("X-RateLimit-Limit", "60")] "core" "core").2 (by decide)

theorem requestLoop_no_error (server : ServerResources) (resource : String)
    (now : Int) :
    ∀ (outcomes : List Outcome) (c : Cache),
      (∃ rec, cacheLookup c resource = some rec ∧ recParses rec) →
      (∀ m, server = some m →
        ∃ rec, cacheLookup m resource = some rec ∧ recParses rec) →
      outcomes.all goodOutcome = true →
      ∃ res, requestLoop server resource now c outcomes = .ok res ∧
        res.map Prod.fst = firstSuccess outcomes := by
  intro outcomes
  induction outcomes with
  | nil => exact fun c _ _ _ => ⟨none, rfl, rfl⟩
  | cons o rest ih =>
      intro c hc hs hg
      rw [List.all_cons, Bool.and_eq_true] at hg
      obtain ⟨hgo, hgr⟩ := hg
      cases o with
      | connErr =>
          obtain ⟨res, hres, hfst⟩ := ih c hc hs hgr
          exact ⟨res, by simpa [requestLoop] using hres, by
            simpa [firstSuccess] using hfst⟩
      | resp r =>
          by_cases h403 : r.status = 403
          · cases hra : hGet r.headers "Retry-After" with
            | some v =>
                have hv : (pyInt v).isSome = true := by
                  simpa [goodOutcome, h403, hra] using hgo
                obtain ⟨pv, hpv⟩ := Option.isSome_iff_exists.mp hv
                obtain ⟨res, hres, hfst⟩ := ih c hc hs hgr
                refine ⟨res, ?_, by simpa [firstSuccess, h403] using hfst⟩
                simp only [requestLoop, h403, hra, Option.isSome_some,
                  and_self, if_true, true_and, Option.getD_some, hpv]
                simpa using hres
            | none =>
                have hfill : ∃ rec,
                    cacheLookup (fillRatelimitCache server c) resource
                      = some rec ∧ recParses rec := by
                  cases server with
                  | none => simpa [fillRatelimitCache] using hc
                  | some m => simpa [fillRatelimitCache] using hs m rfl
                obtain ⟨rec', hrec', hp'⟩ := hfill
                obtain ⟨w, hw⟩ :=
                  waitForRatelimit_hit server hrec' hp' now
                obtain ⟨res, hres, hfst⟩ :=
                  ih (fillRatelimitCache server c)
                    ⟨rec', hrec', hp'⟩ hs hgr
                refine ⟨res, ?_, by simpa [firstSuccess, h403] using hfst⟩
                simp only [requestLoop, h403, hra, Option.isSome_none,
                  and_false, if_false, true_and, Bool.false_eq_true]
                rw [hw]
                simpa using hres
          · refine ⟨some (r, cacheRatelimitHeaders c r.headers resource),
              ?_, by simp [firstSuccess, h403]⟩
            simp [requestLoop, h403]

/-- C5 (corrected): as long as the rate-limit records the gate consults
are available and numeric — the initial cache holds the resource, any
server refresh yields it, and every 403 `Retry-After` header parses —
`request` never raises: connection errors and 403 responses are retried
(with sleeps), and the first non-403 response is returned to the
caller; an all-failure outcome stream leaves it retrying (`none`), so
no permanent failure is ever reported.  Without those provisos a
cache-lookup `KeyError` can reach the caller (see the
counterexample). -/
theorem request_retry_policy (c : Cache) (server : ServerResources)
    (resource : String) (now : Int) (outcomes : List Outcome)
    (hc : ∃ rec, cacheLookup c resource = some rec ∧ recParses rec)
    (hs : ∀ m, server = some m →
      ∃ rec, cacheLookup m resource = some rec ∧ recParses rec)
    (hgood : outcomes.all goodOutcome = true) :
    ∃ res, request c server resource now outcomes = .ok res ∧
      res.map Prod.fst = firstSuccess outcomes := by
  obtain ⟨rec, hrec, hp⟩ := hc
  obtain ⟨w, hw⟩ := waitForRatelimit_hit server hrec hp now
  obtain ⟨res, hres, hfst⟩ :=
    requestLoop_no_error server resource now outcomes c
      ⟨rec, hrec, hp⟩ hs hgood
  refine ⟨res, ?_, hfst⟩
  unfold request
  rw [hw]
  exact hres

/-- Witness for `request_retry_policy`: a connection error, a 403 with
a numeric `Retry-After`, a bare 403 and finally a 200 — the 200
response is returned. -/
theorem request_retry_policy_witness :
    ∃ res,
      request [("core", ⟨"60", "1", "0"⟩)] none "core" 0
          [.connErr, .resp ⟨403, [("Retry-After", "3")]⟩, .resp ⟨403, []⟩,
           .resp ⟨200, []⟩] = .ok res ∧
        res.map Prod.fst =
          firstSuccess [.connErr, .resp ⟨403, [("Retry-After", "3")]⟩,
            .resp ⟨403, []⟩, .resp ⟨200, []⟩] :=
  request_retry_policy _ _ _ _ _
    ⟨⟨"60", "1", "0"⟩, rfl, by decide⟩
    (fun m h => nomatch h) (by decide)

/-- Counterexample to C5 as stated: with an empty rate-limit cache and
a quota endpoint that yields no usable data, the cache lookup inside
`_wait_for_ratelimit` raises `KeyError` straight to the caller before
any transport attempt — a cache-lookup error is reported. -/
theorem request_cache_miss_key_error :
    request [] none "core" 0 [] = .error .keyError := rfl

theorem pyWhitespace_not_digit {ch : Char} (h : pyWhitespace ch = true) :
    ch.isDigit = false := by
  simp only [pyWhitespace, Char.isWhitespace, Bool.or_eq_true,
    decide_eq_true_eq] at h
  rcases h with ((((((((((h | h) | h) | h) | h) | h) | h) | h) | h) | h) | h)
  all_goals subst h
  all_goals decide

theorem pySplitlinesAux_all (P : Char → Bool) (cs acc : List Char)
    (b : Bool) :
    cs.all P = true → acc.all P = true →
    ∀ l ∈ pySplitlinesAux cs acc b, l.all P = true := by
  induction cs, acc, b using pySplitlinesAux.induct with
  | case1 acc x hem =>
      intro _ _ l hl
      simp [pySplitlinesAux, hem] at hl
  | case2 acc x hem =>
      intro _ hacc l hl
      simp [pySplitlinesAux, hem] at hl
      subst hl
      simp only [List.all_eq_true] at hacc ⊢
      exact fun x hx => hacc x (List.mem_reverse.mp hx)
  | case3 c cs acc skipNl hcond ih =>
      intro hcs hacc l hl
      simp only [List.all_cons, Bool.and_eq_true] at hcs
      simp only [pySplitlinesAux] at hl
      rw [if_pos hcond] at hl
      exact ih hcs.2 hacc l hl
  | case4 cs acc skipNl hcond ih =>
      intro hcs hacc l hl
      simp only [List.all_cons, Bool.and_eq_true] at hcs
      simp only [pySplitlinesAux] at hl
      rw [if_neg hcond] at hl
      simp only [if_true] at hl
      rcases List.mem_cons.mp hl with h | h
      · subst h
        simp only [List.all_eq_true] at hacc ⊢
        exact fun x hx => hacc x (List.mem_reverse.mp hx)
      · exact ih hcs.2 rfl l h
  | case5 c cs acc skipNl hcond hne hbr ih =>
      intro hcs hacc l hl
      simp only [List.all_cons, Bool.and_eq_true] at hcs
      simp only [pySplitlinesAux] at hl
      rw [if_neg hcond, if_neg hne, if_pos hbr] at hl
      rcases List.mem_cons.mp hl with h | h
      · subst h
        simp only [List.all_eq_true] at hacc ⊢
        exact fun x hx => hacc x (List.mem_reverse.mp hx)
      · exact ih hcs.2 rfl l h
  | case6 c cs acc skipNl hcond hne hbr ih =>
      intro hcs hacc l hl
      simp only [List.all_cons, Bool.and_eq_true] at hcs
      simp only [pySplitlinesAux] at hl
      rw [if_neg hcond, if_neg hne, if_neg hbr] at hl
      refine ih hcs.2 ?_ l hl
      simp [hcs.1, hacc]

theorem matchStats_whitespace {l : List Char}
    (h : l.all pyWhitespace = true) : matchStats l = none := by
  cases l with
  | nil => rfl
  | cons c rest =>
      simp only [List.all_cons, Bool.and_eq_true] at h
      by_cases hc : c = ' '
      · subst hc
        have hd : rest.takeWhile Char.isDigit = [] := by
          cases rest with
          | nil => rfl
          | cons r rs =>
              simp only [List.all_cons, Bool.and_eq_true] at h
              have hr : r.isDigit = false := pyWhitespace_not_digit h.2.1
              simp [List.takeWhile_cons, hr]
        have hdig : digits1 rest = none := by simp [digits1, hd]
        simp [matchStats, lit, hdig]
      · simp [matchStats, lit, hc]

theorem statsOfLines_all_none :
    ∀ ls : List (List Char), (∀ l ∈ ls, matchStats l = none) →
      statsOfLines ls = { additions := 0, deletions := 0, total := 0 }
  | [], _ => rfl
  | l :: ls, h => by
      have h1 := h l (List.mem_cons_self l ls)
      have h2 := statsOfLines_all_none ls
        (fun x hx => h x (List.mem_cons_of_mem l hx))
      simp [statsOfLines, h1, h2]

theorem statsOfLines_total :
    ∀ ls : List (List Char), (statsOfLines ls).total =
      (statsOfLines ls).additions + (statsOfLines ls).deletions
  | [] => rfl
  | l :: ls => by
      simp only [statsOfLines]
      cases matchStats l with
      | none => exact statsOfLines_total ls
      | some g => rfl

/-- C7: shortstat parsing.  The three documented one-commit stats lines
parse to exactly the claimed records; every whitespace-only (in
particular empty) input parses to the all-zero record; and for every
input `total = additions + deletions`, an absent capture group counting
as zero. -/
theorem parse_stats_spec (s : String) :
    parseStats " 1 file changed, 104 insertions(+), 22 deletions(-)\n" =
      { additions := 104, deletions := 22, total := 126 } ∧
    parseStats " 19 files changed, 2606 deletions(-)\n" =
      { additions := 0, deletions := 2606, total := 2606 } ∧
    parseStats " 1 file changed, 21 insertions(+)\n" =
      { additions := 21, deletions := 0, total := 21 } ∧
    (s.toList.all pyWhitespace = true →
      parseStats s = { additions := 0, deletions := 0, total := 0 }) ∧
    (parseStats s).total =
      (parseStats s).additions + (parseStats s).deletions := by
  refine ⟨rfl, rfl, rfl, ?_, statsOfLines_total _⟩
  intro hws
  unfold parseStats pySplitlines
  exact statsOfLines_all_none _ (fun l hl => matchStats_whitespace
    (pySplitlinesAux_all pyWhitespace s.toList [] false hws rfl l hl))

/-- Witness for `parse_stats_spec`: a whitespace-only input parses to
the all-zero record. -/
theorem parse_stats_spec_witness :
    parseStats "  \n " = { additions := 0, deletions := 0, total := 0 } :=
  (parse_stats_spec "  \n ").2.2.2.1 (by decide)

/-- C8: searching the nested structure
`{"a": [scalar, scalar, {"b": "https://github.com/owner/repo/blob/x"}]}`
yields exactly one match, the normalised `"owner/repo"`, at path
`["a", 2, "b"]`, whatever the two scalar (number/boolean/null) leaves
are — scalar leaves contribute no matches. -/
theorem github_link_search_nested (j0 j1 : Json)
    (h0 : j0.isScalar = true) (h1 : j1.isScalar = true) :
    githubLinkSearch
        (.obj [("a", .arr [j0, j1,
          .obj [("b", .str "https://github.com/owner/repo/blob/x")]])]) =
      [([.key "a", .idx 2, .key "b"], "owner/repo")] := by
  cases j0 <;> cases j1 <;>
    first
      | exact Bool.noConfusion h0
      | exact Bool.noConfusion h1
      | rfl

/-- Witness for `github_link_search_nested` with a number and `null`
as the scalar leaves. -/
theorem github_link_search_nested_witness :
    githubLinkSearch
        (.obj [("a", .arr [.num 1, .null,
          .obj [("b", .str "https://github.com/owner/repo/blob/x")]])]) =
      [([.key "a", .idx 2, .key "b"], "owner/repo")] :=
  github_link_search_nested (.num 1) .null rfl rfl

theorem all_takeWhile (p : Char → Bool) :
    ∀ l : List Char, (l.takeWhile p).all p = true
  | [] => rfl
  | c :: cs => by
      by_cases h : p c <;> simp [List.takeWhile_cons, h, all_takeWhile p cs]

theorem takeWhile_append_drop (p : Char → Bool) :
    ∀ l : List Char, l.takeWhile p ++ l.drop (l.takeWhile p).length = l
  | [] => rfl
  | c :: cs => by
      by_cases h : p c <;>
        simp [List.takeWhile_cons, h, takeWhile_append_drop p cs]

theorem takeWhile_append_eq (p : Char → Bool) :
    ∀ (xs : List Char) (y : Char) (ys : List Char), xs.all p = true →
      p y = false → (xs ++ y :: ys).takeWhile p = xs
  | [], y, ys, _, hy => by simp [List.takeWhile_cons, hy]
  | x :: xs, y, ys, hall, hy => by
      simp only [List.all_cons, Bool.and_eq_true] at hall
      simp [List.takeWhile_cons, hall.1,
        takeWhile_append_eq p xs y ys hall.2 hy]

theorem takeWhile_all_self (p : Char → Bool) :
    ∀ xs : List Char, xs.all p = true → xs.takeWhile p = xs
  | [], _ => rfl
  | x :: xs, hall => by
      simp only [List.all_cons, Bool.and_eq_true] at hall
      simp [List.takeWhile_cons, hall.1, takeWhile_all_self p xs hall.2]

/-- C6 (corrected): exact characterisation of
`RepoVerifier.full_name_to_parts`.  It returns `(o, n)` precisely for
the strings `o ++ "/" ++ n` — optionally with one trailing newline,
which Python's `$` accepts — where `o` is a nonempty run of `ownerChar`
characters (letters of either case including the four case-fold letters
İ, ı, ſ and K that `re.IGNORECASE` folds into `[a-z]`, digits,
hyphen) and `n` a nonempty run of `nameChar` characters (the same plus
`_` and `.`); every other string raises `ValueError`.  The pattern is
case-insensitive, not lowercase-only as the claim words it (see the
counterexample). -/
theorem full_name_to_parts_characterisation (s o n : String) :
    full_name_to_parts s = .ok (o, n) ↔
      (o.data ≠ [] ∧ o.data.all ownerChar = true ∧
       n.data ≠ [] ∧ n.data.all nameChar = true ∧
       (s = o ++ "/" ++ n ∨ s = o ++ "/" ++ n ++ "\n")) := by
  constructor
  · intro h
    unfold full_name_to_parts at h
    cases hm : matchFullName s with
    | none => rw [hm] at h; exact absurd h (by simp)
    | some p =>
        rw [hm] at h
        obtain rfl : p = (o, n) := by simpa using h
        simp only [matchFullName] at hm
        by_cases he : (s.toList.takeWhile ownerChar).isEmpty = true
        · rw [if_pos he] at hm; exact absurd hm (by simp)
        rw [if_neg he] at hm
        have hsplit := takeWhile_append_drop ownerChar s.toList
        cases hd : s.toList.drop (s.toList.takeWhile ownerChar).length with
        | nil => rw [hd] at hm; exact absurd hm (by simp)
        | cons c rest =>
            rw [hd] at hm
            dsimp only at hm
            rw [hd] at hsplit
            by_cases hc : c = '/'
            · rw [if_pos hc] at hm
              subst hc
              by_cases hne : (rest.takeWhile nameChar).isEmpty = true
              · rw [if_pos hne] at hm; exact absurd hm (by simp)
              rw [if_neg hne] at hm
              have hsplit2 := takeWhile_append_drop nameChar rest
              cases ht : rest.drop (rest.takeWhile nameChar).length with
              | nil =>
                  rw [ht] at hm
                  dsimp only at hm
                  rw [ht, List.append_nil] at hsplit2
                  simp only [Option.some.injEq, Prod.mk.injEq] at hm
                  obtain ⟨ho, hn⟩ := hm
                  refine ⟨?_, ?_, ?_, ?_, Or.inl ?_⟩
                  · rw [← ho]
                    simpa [List.isEmpty_iff] using he
                  · rw [← ho]; exact all_takeWhile ownerChar s.toList
                  · rw [← hn]
                    simpa [List.isEmpty_iff] using hne
                  · rw [← hn]; exact all_takeWhile nameChar rest
                  · apply String.ext
                    simp only [String.data_append]
                    rw [← ho, ← hn]
                    show s.data =
                      (s.toList.takeWhile ownerChar ++ ['/']) ++
                        rest.takeWhile nameChar
                    rw [List.append_assoc, hsplit2]
                    exact hsplit.symm
              | cons c' tl' =>
                  cases tl' with
                  | nil =>
                      rw [ht] at hm
                      dsimp only at hm
                      by_cases hcn : c' = '\n'
                      · rw [if_pos hcn] at hm
                        subst hcn
                        rw [ht] at hsplit2
                        simp only [Option.some.injEq, Prod.mk.injEq] at hm
                        obtain ⟨ho, hn⟩ := hm
                        refine ⟨?_, ?_, ?_, ?_, Or.inr ?_⟩
                        · rw [← ho]
                          simpa [List.isEmpty_iff] using he
                        · rw [← ho]; exact all_takeWhile ownerChar s.toList
                        · rw [← hn]
                          simpa [List.isEmpty_iff] using hne
                        · rw [← hn]; exact all_takeWhile nameChar rest
                        · apply String.ext
                          simp only [String.data_append]
                          rw [← ho, ← hn]
                          show s.data =
                            ((s.toList.takeWhile ownerChar ++ ['/']) ++
                              rest.takeWhile nameChar) ++ ['\n']
                          rw [List.append_assoc, List.append_assoc, hsplit2]
                          exact hsplit.symm
                      · rw [if_neg hcn] at hm; exact absurd hm (by simp)
                  | cons c'' tl'' =>
                      rw [ht] at hm
                      dsimp only at hm
                      exact absurd hm (by simp)
            · rw [if_neg hc] at hm; exact absurd hm (by simp)
  · rintro ⟨ho, hoall, hn, hnall, hs | hs⟩
    · have hm : matchFullName (o ++ "/" ++ n) = some (o, n) := by
        simp only [matchFullName]
        have hdata : (o ++ "/" ++ n).toList = o.data ++ '/' :: n.data := by
          show (o ++ "/" ++ n).data = _
          simp [String.data_append]
        rw [hdata, takeWhile_append_eq ownerChar o.data '/' n.data hoall
          (by decide)]
        rw [if_neg (by simpa [List.isEmpty_iff] using ho)]
        rw [show o.data ++ '/' :: n.data = o.data ++ ('/' :: n.data) from
          rfl, List.drop_left]
        dsimp only
        rw [if_pos rfl, takeWhile_all_self nameChar n.data hnall]
        rw [if_neg (by simpa [List.isEmpty_iff] using hn)]
        rw [List.drop_length]
      subst hs
      unfold full_name_to_parts
      rw [hm]
    · have hm : matchFullName (o ++ "/" ++ n ++ "\n") = some (o, n) := by
        simp only [matchFullName]
        have hdata : (o ++ "/" ++ n ++ "\n").toList =
            o.data ++ '/' :: (n.data ++ ['\n']) := by
          show (o ++ "/" ++ n ++ "\n").data = _
          simp [String.data_append]
        rw [hdata, takeWhile_append_eq ownerChar o.data '/'
          (n.data ++ ['\n']) hoall (by decide)]
        rw [if_neg (by simpa [List.isEmpty_iff] using ho)]
        rw [show o.data ++ '/' :: (n.data ++ ['\n']) =
          o.data ++ ('/' :: (n.data ++ ['\n'])) from rfl, List.drop_left]
        dsimp only
        rw [if_pos rfl, takeWhile_append_eq nameChar n.data '\n' [] hnall
          (by decide)]
        rw [if_neg (by simpa [List.isEmpty_iff] using hn)]
        rw [List.drop_left]
        dsimp only
        rw [if_pos rfl]
      subst hs
      unfold full_name_to_parts
      rw [hm]

/-- Witness for `full_name_to_parts_characterisation`: a well-formed
name parses to its two parts. -/
theorem full_name_to_parts_characterisation_witness :
    full_name_to_parts "foo/bar" = .ok ("foo", "bar") :=
  (full_name_to_parts_characterisation "foo/bar" "foo" "bar").mpr
    ⟨by decide, by decide, by decide, by decide, Or.inl rfl⟩

/-- Counterexample to C6 as stated: `"A/b"` does not match a
lowercase-alphanumeric pattern, yet `full_name_to_parts` accepts it
(the compiled pattern carries `re.IGNORECASE`) instead of raising
`ValueError`. -/
theorem full_name_uppercase_counterexample :
    full_name_to_parts "A/b" = .ok ("A", "b") ∧
      specLowercaseFullName "A/b" = false :=
  ⟨rfl, rfl⟩

end OSAA
